import Mathlib

/-!
Verification development for the pseudos repository: the BIOS/DOS personality
layer of an 8086 emulator.  The definitions below are a shallow embedding of
the Rust sources under `src/libpseudos/src/`:

* `dos_error_codes.rs` — the `DosErrorCode` enumeration;
* `dos_file_system.rs` — 8.3 file-name translation (`split_filename`,
  `real_to_dos_name`, `filename_matches_spec`), the `DirListingCache`
  bidirectional name cache and the `StandardDosFileSystem` handle table with
  `close`/`read`/`write`/`seek`;
* `dos_event_handler.rs` — interrupt handlers (INT 08h timer tick,
  INT 21h AH=25h/35h interrupt-vector access, INT 10h AH=06h window clear) and
  `DosEventHandler::init_machine`;
* `bios_loader.rs` — BIOS data area constants and
  `initialise_bios_data_area`;
* `exe_loader.rs` — the `MzHeader` structure, `data_start`/`data_end`,
  `extract_data` and `load_into_machine`.

Machine integers are modelled as `Nat` with explicit `% 2^w` where the Rust
code masks or wraps.  The CPU core (the external `xachtsechs` crate) is not
part of this repository; the few primitives of its interface that the
handlers use (`peek_u8/u16`, `poke_u8/u16`, registers, the interrupt-table
entry size, `interrupt_on_next_step`, `insert_contiguous_bytes`) are modelled
from the interface description in the specification, as noted at each
definition.
-/

/-! ## dos_error_codes.rs -/

/-- `DosErrorCode` from `dos_error_codes.rs`. -/
inductive DosErrorCode where
  | FileNotFound
  | PathNotFound
  | NoFileHandlesLeft
  | AccessDenied
  | InvalidFileHandle
  | InsufficientMemory
  | InvalidFileAccessMode
  | InvalidData
  | NoMoreFiles
  | FileAlreadyExists
  deriving DecidableEq, Repr

/-- The `#[repr(u8)]` discriminant of each `DosErrorCode` variant. -/
def DosErrorCode.code : DosErrorCode → Nat
  | .FileNotFound => 0x02
  | .PathNotFound => 0x03
  | .NoFileHandlesLeft => 0x04
  | .AccessDenied => 0x05
  | .InvalidFileHandle => 0x06
  | .InsufficientMemory => 0x08
  | .InvalidFileAccessMode => 0x0c
  | .InvalidData => 0x0d
  | .NoMoreFiles => 0x12
  | .FileAlreadyExists => 0x50

/-! ## dos_file_system.rs: seek origins and the handle table

A host file (`std::fs::File`) is modelled by its current position and its
size, which is all that `seek` observes.  `std::io::Seek` semantics: seeking
may go past the end of the file; the new absolute position is returned. -/

/-- `DosFileSeekOrigin` from `dos_file_system.rs`. -/
inductive DosFileSeekOrigin where
  | Start
  | Current
  | End
  deriving DecidableEq, Repr

/-- Modelled from the spec: a host `std::fs::File` as observed by `seek` —
its current position and its byte size (`std::io::Seek` allows seeking past
the end; the new absolute position is returned). -/
structure FileState where
  pos : Nat
  size : Nat
  deriving DecidableEq, Repr

/-- `StandardDosFileSystem`, restricted to the `file_handles` table that
`close`/`read`/`write`/`seek` consult (the directory cache and find-file
queue are modelled separately). -/
structure StandardDosFileSystem where
  file_handles : List (Option FileState)
  deriving DecidableEq, Repr

/-- `StandardDosFileSystem::close`.  Returns the result together with the
file system after the call (the Rust method mutates `self`; on error the
table is untouched). -/
def fsClose (fs : StandardDosFileSystem) (handle : Nat) :
    Except DosErrorCode Unit × StandardDosFileSystem :=
  if handle = 0 then
    (.error .InvalidFileHandle, fs)
  else
    let handle_index := handle - 1
    match fs.file_handles.getD handle_index none with
    | some _ => (.ok (), ⟨fs.file_handles.set handle_index none⟩)
    | none => (.error .InvalidFileHandle, fs)

/-- `StandardDosFileSystem::read`.  `file.read(destination)` reads up to
`destination.len()` bytes from the current position and advances it; the
byte count read is returned. -/
def fsRead (fs : StandardDosFileSystem) (handle : Nat) (count : Nat) :
    Except DosErrorCode Nat × StandardDosFileSystem :=
  if handle = 0 then
    (.error .InvalidFileHandle, fs)
  else
    let handle_index := handle - 1
    match fs.file_handles.getD handle_index none with
    | some f =>
        let read_count := min count (f.size - f.pos)
        (.ok read_count,
         ⟨fs.file_handles.set handle_index (some ⟨f.pos + read_count, f.size⟩)⟩)
    | none => (.error .InvalidFileHandle, fs)

/-- `StandardDosFileSystem::write` is `unimplemented!()`: calling it panics
for every handle and every payload.  The panic is modelled as `none`; a
normal return (`Ok`/`Err`) would be `some`. -/
def fsWrite (_fs : StandardDosFileSystem) (_handle : Nat) (_data : List Nat) :
    Option (Except DosErrorCode Nat × StandardDosFileSystem) :=
  none

/-- `StandardDosFileSystem::seek`.  The offset is a `u32`; the Rust code
builds `SeekFrom::Current(offset as i64)` and `SeekFrom::End(offset as i64)`,
and `offset as i64` zero-extends, so the relative origins always move forward
by `offset` bytes.  The returned position is truncated `as u32`. -/
def fsSeek (fs : StandardDosFileSystem) (handle : Nat) (offset : Nat)
    (origin : DosFileSeekOrigin) : Except DosErrorCode Nat × StandardDosFileSystem :=
  if handle = 0 then
    (.error .InvalidFileHandle, fs)
  else
    let handle_index := handle - 1
    match fs.file_handles.getD handle_index none with
    | some f =>
        let new_pos : Nat :=
          match origin with
          | .Start => offset
          | .Current => f.pos + offset
          | .End => f.size + offset
        (.ok (new_pos % 2 ^ 32),
         ⟨fs.file_handles.set handle_index (some ⟨new_pos, f.size⟩)⟩)
    | none => (.error .InvalidFileHandle, fs)

/-- The signed 32-bit reinterpretation of a `u32` value, as an `Int`
(what the specification says the relative seek origins use). -/
def toInt32 (v : Nat) : Int :=
  if v < 2 ^ 31 then (v : Int) else (v : Int) - 2 ^ 32

/-! ## dos_file_system.rs: 8.3 file names

Host file names are `&str` in Rust; they are modelled as lists of Unicode
code points (`List Nat`).  DOS names and byte strings are lists of bytes. -/

/-- `u8::to_ascii_uppercase`. -/
def asciiUpper (b : Nat) : Nat :=
  if 97 ≤ b ∧ b ≤ 122 then b - 32 else b

/-- `DosFileName` from `dos_file_system.rs`: an uppercase title and
extension, each a byte string. -/
structure DosFileName where
  title : List Nat
  ext : List Nat
  deriving DecidableEq, Repr

/-- `filename.iter().rposition(|c| *c == b'.')`: the index of the last `.`
(byte 46), if any. -/
def rpositionDot : List Nat → Option Nat
  | [] => none
  | c :: rest =>
    match rpositionDot rest with
    | some i => some (i + 1)
    | none => if c = 46 then some 0 else none

/-- `split_filename` from `dos_file_system.rs`: split at the last dot; the
part after the dot is kept only up to 3 bytes (the code's two branches on
`after_dot.len() <= 3` both amount to `take 3`); no dot means no extension. -/
def split_filename (filename : List Nat) : List Nat × Option (List Nat) :=
  match rpositionDot filename with
  | some dot_pos => (filename.take dot_pos, some ((filename.drop (dot_pos + 1)).take 3))
  | none => (filename, none)

/-- `DosFileName::parse`. -/
def DosFileName.parse (dos_filename : List Nat) : DosFileName :=
  let (title, ext) := split_filename dos_filename
  ⟨title.map asciiUpper, (ext.getD []).map asciiUpper⟩

/-- `DosFileName::real_dos_name`: title, then `.` and the extension when the
extension is non-empty. -/
def DosFileName.real_dos_name (d : DosFileName) : List Nat :=
  d.title ++ (if d.ext.isEmpty then [] else 46 :: d.ext)

/-- `ascii_filename_to_string`: uppercase every byte (the `as char`
conversion is the identity on the byte values). -/
def ascii_filename_to_string (ascii : List Nat) : List Nat :=
  ascii.map asciiUpper

/-- The ASCII decimal digits of `extra_index.to_string()`. -/
def decimalDigits (n : Nat) : List Nat :=
  (Nat.toDigits 10 n).map Char.toNat

/-- `real_to_dos_name` from `dos_file_system.rs`: transcode to uppercase
ASCII (`_` for code points above 255), split into title/extension, truncate
to 8/3 bytes, and when `extra_index` is given append `~<index>` after
truncating the title so the combined length is at most 8.  (With an index of
8 or more decimal digits the Rust slice would panic; `Nat` subtraction clamps
instead, which no reachable input exercises.) -/
def real_to_dos_name (filename : List Nat) (extra_index : Option Nat) : DosFileName :=
  let ascii_name := filename.map (fun c => if c ≤ 255 then asciiUpper c else 95)
  let (file_title, file_ext) := split_filename ascii_name
  let short_title := file_title.take 8
  let short_ext := (file_ext.getD []).take 3
  let title_index_text :=
    match extra_index with
    | some i => 126 :: decimalDigits i
    | none => []
  let current_title_len := short_title.length + title_index_text.length
  let short_title :=
    if current_title_len > 8 then
      short_title.take (short_title.length - (current_title_len - 8))
    else short_title
  ⟨short_title ++ title_index_text, short_ext⟩

/-! ## dos_file_system.rs: wildcard matching -/

/-- The `for c in text` loop inside `filename_matches_spec`'s
`match_against_spec` closure.  State: `spec_pos` and the
`just_processed_star` flag (which, once set, is never cleared).  `none`
models the early `return false`. -/
def matchLoop (spec : List Nat) : List Nat → Nat → Bool → Option (Nat × Bool)
  | [], spec_pos, star => some (spec_pos, star)
  | c :: text, spec_pos, star =>
    match spec.get? spec_pos with
    | some spec_char =>
      if spec_char = 42 then
        let spec_pos' :=
          match spec.get? (spec_pos + 1) with
          | some next_spec_char => if c = next_spec_char then spec_pos + 1 else spec_pos
          | none => spec_pos
        matchLoop spec text spec_pos' true
      else if spec_char = 63 then
        matchLoop spec text (spec_pos + 1) star
      else if c = spec_char then
        matchLoop spec text (spec_pos + 1) star
      else
        none
    | none => none

/-- `match_against_spec`: run the loop; afterwards a processed star bumps
`spec_pos` once, and the match succeeds if the spec was fully consumed. -/
def match_against_spec (text spec : List Nat) : Bool :=
  match matchLoop spec text 0 false with
  | some (spec_pos, just_processed_star) =>
      (if just_processed_star then spec_pos + 1 else spec_pos) = spec.length
  | none => false

/-- `filename_matches_spec` from `dos_file_system.rs`: the title and the
extension are matched independently; a spec without an extension matches any
extension. -/
def filename_matches_spec (filename : DosFileName) (search_spec : List Nat) : Bool :=
  let (spec_title, spec_ext) := split_filename search_spec
  let title_matches := match_against_spec filename.title spec_title
  let ext_matches :=
    match spec_ext with
    | some se => match_against_spec filename.ext se
    | none => true
  title_matches && ext_matches

/-! ## dos_file_system.rs: DirListingCache

The two `HashMap`s are modelled as association lists with `HashMap`
semantics: `ainsert` replaces any existing binding of the key, `alookup`
finds the binding.  `list_dir` enumerates a host directory, which is
modelled as the list of its file names. -/

/-- `HashMap::get`. -/
def alookup {α β : Type} [DecidableEq α] : List (α × β) → α → Option β
  | [], _ => none
  | (k, v) :: rest, k' => if k' = k then some v else alookup rest k'

/-- `HashMap::insert`: any previous binding of the key is replaced. -/
def ainsert {α β : Type} [DecidableEq α] (l : List (α × β)) (k : α) (v : β) :
    List (α × β) :=
  (k, v) :: l.filter (fun p => !decide (p.1 = k))

/-- `DirListingCache` from `dos_file_system.rs` (the `dir_path` field is
represented by the directory listing passed to the operations). -/
structure DirListingCache where
  real_to_dos_names : List (List Nat × DosFileName)
  dos_to_real_names : List (DosFileName × List Nat)
  deriving DecidableEq, Repr

/-- The `while self.dos_to_real_names.contains_key(&dos_name)` loop of
`get_dos_name`: starting from the candidate for `extra_index = None`, retry
with `extra_index = Some 1, 2, …` until the candidate is free.  The Rust
loop runs unboundedly; here it carries fuel and returns `none` when the fuel
runs out (the caller passes enough fuel for a free name to exist among
pairwise-distinct candidates). -/
def freshDosName (dos_to_real : List (DosFileName × List Nat))
    (real_filename : List Nat) :
    DosFileName → Nat → Nat → Option DosFileName
  | _cand, _, 0 => none
  | cand, name_index, fuel + 1 =>
    if (alookup dos_to_real cand).isSome then
      freshDosName dos_to_real real_filename
        (real_to_dos_name real_filename (some name_index)) (name_index + 1) fuel
    else
      some cand

/-- `DirListingCache::get_dos_name`: return the cached 8.3 name, or
synthesize a fresh one (avoiding collisions in the inverse map) and record
it in both maps.  In the out-of-fuel case — unreachable, the Rust loop would
simply keep searching — the cache is left unchanged. -/
def getDosName (c : DirListingCache) (real_filename : List Nat) :
    DosFileName × DirListingCache :=
  match alookup c.real_to_dos_names real_filename with
  | some existing_dos_name => (existing_dos_name, c)
  | none =>
    match freshDosName c.dos_to_real_names real_filename
        (real_to_dos_name real_filename none) 1 (c.dos_to_real_names.length + 1) with
    | some dos_name =>
        (dos_name,
         ⟨ainsert c.real_to_dos_names real_filename dos_name,
          ainsert c.dos_to_real_names dos_name real_filename⟩)
    | none => (real_to_dos_name real_filename none, c)

/-- `DirListingCache::list_dir`: register every host file name through
`get_dos_name` (the `on_found_file` callbacks of the claims' call sites do
not touch the cache). -/
def listDir (dir : List (List Nat)) (c : DirListingCache) : DirListingCache :=
  dir.foldl (fun acc name => (getDosName acc name).2) c

/-- `DirListingCache::get_real_name`: refresh the listing, then return the
cached host name; an unknown 8.3 name is registered with the host name
synthesized from the 8.3 name itself. -/
def getRealName (dir : List (List Nat)) (c : DirListingCache)
    (dos_filename : DosFileName) : List Nat × DirListingCache :=
  let c := listDir dir c
  match alookup c.dos_to_real_names dos_filename with
  | some existing_real_name => (existing_real_name, c)
  | none =>
    let real_name := ascii_filename_to_string dos_filename.real_dos_name
    (real_name,
     ⟨ainsert c.real_to_dos_names real_name dos_filename,
      ainsert c.dos_to_real_names dos_filename real_name⟩)

/-- `DirListingCache::new`: start from empty maps and run one listing. -/
def cacheNew (dir : List (List Nat)) : DirListingCache :=
  listDir dir ⟨[], []⟩

/-- One cache call: `get_dos_name` with a host name, or `get_real_name`
with an 8.3 name. -/
inductive CacheOp where
  | getDos : List Nat → CacheOp
  | getReal : DosFileName → CacheOp
  deriving DecidableEq, Repr

/-- Run one cache call for its cache effect. -/
def stepCache (dir : List (List Nat)) (c : DirListingCache) : CacheOp → DirListingCache
  | .getDos r => (getDosName c r).2
  | .getReal d => (getRealName dir c d).2

/-- Run a sequence of cache calls. -/
def runCache (dir : List (List Nat)) (ops : List CacheOp) (c : DirListingCache) :
    DirListingCache :=
  ops.foldl (stepCache dir) c

/-- The bijection invariant of the claim: every binding of either map, looked
up through the other map, returns its originally-inserted counterpart. -/
def cacheBij (c : DirListingCache) : Bool :=
  c.real_to_dos_names.all
    (fun p => decide (alookup c.dos_to_real_names p.2 = some p.1)) &&
  c.dos_to_real_names.all
    (fun p => decide (alookup c.real_to_dos_names p.2 = some p.1))

/-- The code points of a host file name given as a string literal. -/
def strBytes (s : String) : List Nat :=
  s.toList.map Char.toNat

/-! ## The machine interface

`Machine8086` lives in the external `xachtsechs` crate.  The state the
handlers touch — flat byte memory, the general and segment registers, the
flags and the queued next-step interrupt — is modelled here from the
interface description of the specification (§6). -/

/-- Modelled from the spec: the `Machine8086` state visible to the service
layer — 1 MiB flat byte memory, the registers the handlers read and write,
the carry and zero flags, and the interrupt queued by
`interrupt_on_next_step`. -/
structure Machine where
  mem : Nat → Nat
  ax : Nat
  bx : Nat
  cx : Nat
  dx : Nat
  ds : Nat
  es : Nat
  ss : Nat
  cs : Nat
  sp : Nat
  ip : Nat
  carry : Bool
  zero : Bool
  pendingInterrupt : Option Nat

/-- Modelled from the spec: `peek_u8` reads one byte of flat memory. -/
def peekU8 (m : Machine) (addr : Nat) : Nat :=
  m.mem addr

/-- Modelled from the spec: `poke_u8` writes one byte of flat memory. -/
def pokeU8 (m : Machine) (addr v : Nat) : Machine :=
  { m with mem := fun a => if a = addr then v % 256 else m.mem a }

/-- Modelled from the spec: `peek_u16`, little-endian. -/
def peekU16 (m : Machine) (addr : Nat) : Nat :=
  m.mem addr + m.mem (addr + 1) * 256

/-- Modelled from the spec: `poke_u16`, little-endian. -/
def pokeU16 (m : Machine) (addr v : Nat) : Machine :=
  pokeU8 (pokeU8 m addr (v % 256)) (addr + 1) (v / 256)

/-- `get_reg_u8(reg, RegHalf::Low)` of a 16-bit register value. -/
def regLow (r : Nat) : Nat :=
  r % 256

/-- `get_reg_u8(reg, RegHalf::High)` of a 16-bit register value. -/
def regHigh (r : Nat) : Nat :=
  r / 256 % 256

/-! ## bios_loader.rs: BIOS data area -/

/-- `BIOS_START` from `bios_loader.rs`: `0x40 << 4`. -/
def BIOS_START : Nat := 0x400

/-- `bios_off_u8` / `bios_off_u16`: a BDA cell's flat address. -/
def biosOff (offset : Nat) : Nat := BIOS_START + offset

def BIOS_EQUIPMENT : Nat := biosOff 10
def BIOS_MEMORY_SIZE_KB : Nat := biosOff 0x13
def BIOS_VIDEO_MODE_INDEX : Nat := biosOff 0x49
def BIOS_TEXT_COLUMN_COUNT : Nat := biosOff 0x4a
def BIOS_TEXT_PAGE_BYTES : Nat := biosOff 0x4c
def BIOS_ACTIVE_VIDEO_PAGE : Nat := biosOff 0x62
def BIOS_VIDEO_IO_PORT_ADDRESS : Nat := biosOff 0x63
def BIOS_SYSTEM_TIMER_COUNTER_LOW : Nat := biosOff 0x6c
def BIOS_SYSTEM_TIMER_COUNTER_HIGH : Nat := biosOff 0x6e
def BIOS_TEXT_ROW_COUNT : Nat := biosOff 0x84
def BIOS_CHAR_HEIGHT : Nat := biosOff 0x85

/-- `initialise_bios_data_area` from `bios_loader.rs`: equipment word,
memory size, text column count, and the video I/O port word `0xd403`. -/
def initialise_bios_data_area (m : Machine) : Machine :=
  let m := pokeU16 m BIOS_EQUIPMENT 0x0061
  let m := pokeU16 m BIOS_MEMORY_SIZE_KB 640
  let m := pokeU16 m BIOS_TEXT_COLUMN_COUNT 80
  pokeU16 m BIOS_VIDEO_IO_PORT_ADDRESS 0xd403

/-! ## dos_event_handler.rs: video modes and init_machine -/

inductive VGAMode where
  | Text
  deriving DecidableEq, Repr

/-- `VideoMode` from `dos_event_handler.rs`. -/
structure VideoMode where
  mode_index : Nat
  vga_mode : VGAMode
  pixel_dims : Nat × Nat
  text_dims : Nat × Nat
  char_pixel_dims : Nat × Nat
  text_address : Nat
  text_page_count : Nat
  text_page_bytes : Nat
  deriving DecidableEq, Repr

/-- The single entry of `EGA_MODES`. -/
def EGA_MODE_3 : VideoMode :=
  ⟨3, .Text, (640, 480), (80, 25), (8, 14), 0xb8000, 8, 0x1000⟩

/-- `DosEventHandler::init_machine`: seed the BDA from the current video
mode, with `0x3d4` as the video I/O port word. -/
def init_machine (video_mode : VideoMode) (m : Machine) : Machine :=
  let m := pokeU8 m BIOS_VIDEO_MODE_INDEX video_mode.mode_index
  let m := pokeU16 m BIOS_TEXT_COLUMN_COUNT video_mode.text_dims.1
  let m := pokeU16 m BIOS_TEXT_PAGE_BYTES video_mode.text_page_bytes
  let m := pokeU16 m BIOS_VIDEO_IO_PORT_ADDRESS 0x3d4
  let m := pokeU16 m BIOS_TEXT_ROW_COUNT video_mode.text_dims.2
  pokeU16 m BIOS_CHAR_HEIGHT video_mode.char_pixel_dims.2

/-! ## dos_event_handler.rs: INT 08h timer tick -/

/-- The INT 08h branch of `DosEventHandler::handle_interrupt`: read the
32-bit timer dword at BDA 0x6C/0x6E, increment with 32-bit wrap, write it
back, and queue INT 1Ch for the next step
(`machine.interrupt_on_next_step(0x1c)`). -/
def int08 (m : Machine) : Machine :=
  let timer_low := peekU16 m BIOS_SYSTEM_TIMER_COUNTER_LOW
  let timer_high := peekU16 m BIOS_SYSTEM_TIMER_COUNTER_HIGH
  let timer := timer_low + timer_high * 65536
  let new_timer := (timer + 1) % 2 ^ 32
  let new_timer_low := new_timer % 65536
  let new_timer_high := new_timer / 65536 % 65536
  let m := pokeU16 m BIOS_SYSTEM_TIMER_COUNTER_LOW new_timer_low
  let m := pokeU16 m BIOS_SYSTEM_TIMER_COUNTER_HIGH new_timer_high
  { m with pendingInterrupt := some 0x1c }

/-- The timer dword as the guest reads it: low word at BDA 0x6C, high word
at 0x6E. -/
def timerDword (m : Machine) : Nat :=
  peekU16 m BIOS_SYSTEM_TIMER_COUNTER_LOW +
    peekU16 m BIOS_SYSTEM_TIMER_COUNTER_HIGH * 65536

/-! ## dos_event_handler.rs: INT 21h AH=25h/35h -/

/-- Modelled from the spec: `INTERRUPT_TABLE_ENTRY_BYTES` of the
`xachtsechs` crate — each interrupt-vector-table slot is 4 bytes
(`IP` then `CS`, little-endian). -/
def INTERRUPT_TABLE_ENTRY_BYTES : Nat := 4

/-- The INT 21h AH=25h branch of `handle_interrupt`: write `DX` and `DS`
into interrupt-vector-table slot `AL` as its `IP` and `CS` words. -/
def int21_25 (m : Machine) : Machine :=
  let entry_addr := regLow m.ax * INTERRUPT_TABLE_ENTRY_BYTES
  let m := pokeU16 m entry_addr m.dx
  pokeU16 m (entry_addr + 2) m.ds

/-- The INT 21h AH=35h branch of `handle_interrupt`: read
interrupt-vector-table slot `AL` into `BX` (the `IP` word) and `ES` (the
`CS` word). -/
def int21_35 (m : Machine) : Machine :=
  let entry_addr := regLow m.ax * INTERRUPT_TABLE_ENTRY_BYTES
  { m with bx := peekU16 m entry_addr, es := peekU16 m (entry_addr + 2) }

/-! ## dos_event_handler.rs: INT 10h AH=06h -/

/-- `DosEventHandler::get_page_origin_address`. -/
def get_page_origin_address (video_mode : VideoMode) (m : Machine)
    (video_page : Nat) : Nat :=
  let page_bytes := peekU16 m BIOS_TEXT_PAGE_BYTES
  video_mode.text_address + video_page * page_bytes

/-- `DosEventHandler::get_screen_character_address` (2 bytes per character;
the column count is read from the BDA on every call). -/
def get_screen_character_address (m : Machine) (page_origin_address x y : Nat) :
    Nat :=
  let column_count := peekU16 m BIOS_TEXT_COLUMN_COUNT
  page_origin_address + (y * column_count + x) * 2

/-- The inner `for x in rect_left ..= rect_right` loop of the AL=0 branch of
INT 10h AH=06h: fill `cnt` cells of row `y` starting at column `x` with
character 0 and the blank attribute. -/
def fillCells (m : Machine) (page_addr y x cnt attr : Nat) : Machine :=
  match cnt with
  | 0 => m
  | cnt' + 1 =>
    let char_addr := get_screen_character_address m page_addr x y
    let m := pokeU8 m char_addr 0
    let m := pokeU8 m (char_addr + 1) attr
    fillCells m page_addr y (x + 1) cnt' attr

/-- The outer `for y in rect_top ..= rect_bottom` loop of the AL=0 branch:
fill `cnt_y` rows starting at row `y`, columns `left ..` for `cnt_x` cells. -/
def fillRows (m : Machine) (page_addr y cnt_y left cnt_x attr : Nat) : Machine :=
  match cnt_y with
  | 0 => m
  | cnt' + 1 =>
    let m := fillCells m page_addr y left cnt_x attr
    fillRows m page_addr (y + 1) cnt' left cnt_x attr

/-- The AH=06h branch of `DosEventHandler::handle_interrupt_10h`: decode
AL/BH/CH/CL/DH/DL, compute the active page origin, and when AL=0 clear the
inclusive rectangle.  The scroll branch (AL > 0) is outside the claims and
is not modelled (`none`). -/
def int10_06 (video_mode : VideoMode) (m : Machine) : Option Machine :=
  let video_page := peekU8 m BIOS_ACTIVE_VIDEO_PAGE
  let num_lines := regLow m.ax
  let blank_char_attributes := regHigh m.bx
  let rect_top := regHigh m.cx
  let rect_left := regLow m.cx
  let rect_bottom := regHigh m.dx
  let rect_right := regLow m.dx
  let page_addr := get_page_origin_address video_mode m video_page
  if num_lines = 0 then
    some (fillRows m page_addr rect_top (rect_bottom + 1 - rect_top)
      rect_left (rect_right + 1 - rect_left) blank_char_attributes)
  else
    none

/-! ## exe_loader.rs: the MZ loader -/

def EXE_PARAGRAPH_BYTES : Nat := 16

/-- `EXE_PROGRAM_SEGMENT_PREFIX_PARAGRAPHS` from `exe_loader.rs` (the PSP is
256 bytes = 16 paragraphs). -/
def EXE_PSP_PARAGRAPHS : Nat := 16

def EXE_BLOCK_BYTES : Nat := 512

def EXE_ORIGIN_PARAGRAPH : Nat := 0x100

/-- `MzHeader` from `exe_loader.rs`: the fifteen little-endian `u16` fields
of the 28-byte header. -/
structure MzHeader where
  signature : Nat
  last_block_bytes : Nat
  file_block_count : Nat
  relocation_items : Nat
  header_paragraph_count : Nat
  minimum_memory_paragraphs : Nat
  maximum_memory_paragraphs : Nat
  initial_ss : Nat
  initial_sp : Nat
  checksum : Nat
  initial_ip : Nat
  initial_cs : Nat
  relocation_table : Nat
  overlay : Nat
  overlay_information : Nat
  deriving DecidableEq, Repr

/-- `MzHeader::data_start`. -/
def MzHeader.data_start (h : MzHeader) : Nat :=
  h.header_paragraph_count * EXE_PARAGRAPH_BYTES

/-- `MzHeader::data_end`. -/
def MzHeader.data_end (h : MzHeader) : Nat :=
  let subtract_bytes :=
    if h.last_block_bytes > 0 then EXE_BLOCK_BYTES - h.last_block_bytes else 0
  h.file_block_count * EXE_BLOCK_BYTES - subtract_bytes

/-- `MzHeader::extract_data`: seek the stream to `data_start` and read into
a zero-filled buffer of `data_end - data_start` bytes (bytes past the end of
the file stay zero). -/
def MzHeader.extract_data (h : MzHeader) (file : List Nat) : List Nat :=
  (List.range (h.data_end - h.data_start)).map
    (fun i => file.getD (h.data_start + i) 0)

/-- Modelled from the spec: `Machine8086::insert_contiguous_bytes` copies
the byte slice into guest memory starting at the given address (§4.1). -/
def insert_contiguous_bytes (m : Machine) (data : List Nat) (addr : Nat) :
    Machine :=
  { m with
    mem := fun a =>
      if addr ≤ a ∧ a < addr + data.length then data.getD (a - addr) 0
      else m.mem a }

/-- `initialise_dos_program_segment_prefix` from `exe_loader.rs` (the Rust
name ends in the word for the PSP structure): segment-after-program word at
PSP+0x02, command-tail length at +0x80, tail bytes from +0x81, then the
0x0D terminator.  An overlong tail is rejected (after the +0x02 poke, which
is how the Rust code is ordered; the claims only use the empty tail). -/
def initialise_dos_psp (m : Machine) (_program_size : Nat)
    (command_line_tail : List Nat) : Except (List Nat) Machine :=
  let psp_start := EXE_ORIGIN_PARAGRAPH * EXE_PARAGRAPH_BYTES
  let m := pokeU16 m (psp_start + 0x02) 0xa000
  let command_line_tail_len := command_line_tail.length + 1
  if command_line_tail_len > 0xff then
    .error (strBytes "Command line tail too long")
  else
    let m := pokeU8 m (psp_start + 0x80) command_line_tail_len
    let m := (List.range command_line_tail.length).foldl
      (fun acc i => pokeU8 acc (psp_start + 0x81 + i) (command_line_tail.getD i 0)) m
    .ok (pokeU8 m (psp_start + 0x81 + command_line_tail.length) 0x0d)

/-- `MzHeader::load_into_machine`: seed SP/IP, SS/CS (offset by the origin
plus PSP paragraphs, `u16` arithmetic), DS/ES, copy the extracted image to
`(EXE_ORIGIN_PARAGRAPH + 16) * EXE_PARAGRAPH_BYTES`, then initialise the
BDA and the PSP (with an empty command-line tail, which cannot fail). -/
def MzHeader.load_into_machine (h : MzHeader) (m : Machine) (file : List Nat) :
    Machine :=
  let m := { m with sp := h.initial_sp, ip := h.initial_ip }
  let segment_offset := EXE_ORIGIN_PARAGRAPH + EXE_PSP_PARAGRAPHS
  let m := { m with
    ss := (h.initial_ss + segment_offset) % 65536,
    cs := (h.initial_cs + segment_offset) % 65536 }
  let m := { m with ds := EXE_ORIGIN_PARAGRAPH, es := EXE_ORIGIN_PARAGRAPH }
  let exe_data := h.extract_data file
  let m := insert_contiguous_bytes m exe_data
    ((EXE_ORIGIN_PARAGRAPH + 16) * EXE_PARAGRAPH_BYTES)
  let m := initialise_bios_data_area m
  match initialise_dos_psp m exe_data.length [] with
  | .ok m' => m'
  | .error _ => m

/-! ## Supporting lemmas: association lists -/

theorem alookup_filter_ne {α β : Type} [DecidableEq α] (l : List (α × β))
    (k k' : α) (hk : k' ≠ k) :
    alookup (l.filter (fun p => !decide (p.1 = k))) k' = alookup l k' := by
  induction l with
  | nil => rfl
  | cons p rest ih =>
    rw [List.filter_cons]
    by_cases hp : p.1 = k
    · have hk' : k' ≠ p.1 := fun h => hk (h.trans hp)
      simp [hp, alookup, hk', hk, ih]
    · simp [hp, alookup, ih]

theorem alookup_ainsert {α β : Type} [DecidableEq α] (l : List (α × β))
    (k k' : α) (v : β) :
    alookup (ainsert l k v) k' = if k' = k then some v else alookup l k' := by
  unfold ainsert
  by_cases hk : k' = k
  · simp [alookup, hk]
  · simp [alookup, hk, alookup_filter_ne l k k' hk]

theorem mem_ainsert {α β : Type} [DecidableEq α] (l : List (α × β))
    (k : α) (v : β) (p : α × β) :
    p ∈ ainsert l k v ↔ p = (k, v) ∨ (p ∈ l ∧ p.1 ≠ k) := by
  simp [ainsert, List.mem_filter]

/-! ## Supporting lemmas: the cache bijection -/

theorem cacheBij_iff (c : DirListingCache) :
    cacheBij c = true ↔
      (∀ p ∈ c.real_to_dos_names, alookup c.dos_to_real_names p.2 = some p.1) ∧
      (∀ p ∈ c.dos_to_real_names, alookup c.real_to_dos_names p.2 = some p.1) := by
  simp [cacheBij, List.all_eq_true]

theorem freshDosName_fresh (dos_to_real : List (DosFileName × List Nat))
    (real_filename : List Nat) :
    ∀ (cand : DosFileName) (name_index fuel : Nat) (d : DosFileName),
      freshDosName dos_to_real real_filename cand name_index fuel = some d →
      alookup dos_to_real d = none := by
  intro cand name_index fuel
  induction fuel generalizing cand name_index with
  | zero => intro d hd; simp [freshDosName] at hd
  | succ fuel ih =>
    intro d hd
    unfold freshDosName at hd
    by_cases hcand : (alookup dos_to_real cand).isSome
    · exact ih _ _ d (by simpa [hcand] using hd)
    · rw [if_neg hcand] at hd
      cases hd
      exact Option.not_isSome_iff_eq_none.mp hcand

theorem cacheBij_insert (c : DirListingCache) (hb : cacheBij c = true)
    (r : List Nat) (d : DosFileName)
    (hr : alookup c.real_to_dos_names r = none)
    (hd : alookup c.dos_to_real_names d = none) :
    cacheBij ⟨ainsert c.real_to_dos_names r d,
      ainsert c.dos_to_real_names d r⟩ = true := by
  obtain ⟨h1, h2⟩ := (cacheBij_iff c).mp hb
  refine (cacheBij_iff _).mpr ⟨?_, ?_⟩
  · intro p hp
    rcases (mem_ainsert _ _ _ p).mp hp with hpe | ⟨hpl, hpne⟩
    · subst hpe
      simp [alookup_ainsert]
    · have hold := h1 p hpl
      have hne : p.2 ≠ d := by
        intro he
        rw [he, hd] at hold
        exact Option.noConfusion hold
      simpa [alookup_ainsert, hne] using hold
  · intro p hp
    rcases (mem_ainsert _ _ _ p).mp hp with hpe | ⟨hpl, hpne⟩
    · subst hpe
      simp [alookup_ainsert]
    · have hold := h2 p hpl
      have hne : p.2 ≠ r := by
        intro he
        rw [he, hr] at hold
        exact Option.noConfusion hold
      simpa [alookup_ainsert, hne] using hold

theorem cacheBij_getDosName (c : DirListingCache) (hb : cacheBij c = true)
    (r : List Nat) : cacheBij (getDosName c r).2 = true := by
  unfold getDosName
  cases hreal : alookup c.real_to_dos_names r with
  | some d => exact hb
  | none =>
    cases hfresh : freshDosName c.dos_to_real_names r
        (real_to_dos_name r none) 1 (c.dos_to_real_names.length + 1) with
    | none => exact hb
    | some d =>
      exact cacheBij_insert c hb r d hreal
        (freshDosName_fresh _ _ _ _ _ _ hfresh)

theorem cacheBij_listDir (dir : List (List Nat)) (c : DirListingCache)
    (hb : cacheBij c = true) : cacheBij (listDir dir c) = true := by
  induction dir generalizing c with
  | nil => exact hb
  | cons name rest ih => exact ih _ (cacheBij_getDosName c hb name)

/-! ## Supporting lemmas: wildcard star matching and handle tables -/

theorem matchLoop_star_run (text : List Nat) :
    matchLoop [42] text 0 true = some (0, true) := by
  induction text with
  | nil => rfl
  | cons c rest ih => simpa [matchLoop] using ih

theorem match_star_nonempty (c : Nat) (t : List Nat) :
    match_against_spec (c :: t) [42] = true := by
  simp [match_against_spec, matchLoop, matchLoop_star_run]

theorem getD_set_of_lt {α : Type} (l : List α) (i : Nat) (x d : α)
    (hi : i < l.length) : (l.set i x).getD i d = x := by
  induction l generalizing i with
  | nil => simp at hi
  | cons a rest ih =>
    cases i with
    | zero => rfl
    | succ n => simpa [List.getD] using ih n (by simpa using hi)

/-! ## The claims -/

instance {e a : Type} [DecidableEq e] [DecidableEq a] : DecidableEq (Except e a) :=
  fun x y =>
    match x, y with
    | .ok v, .ok w => if h : v = w then .isTrue (by rw [h]) else .isFalse (by simp [h])
    | .error v, .error w => if h : v = w then .isTrue (by rw [h]) else .isFalse (by simp [h])
    | .ok _, .error _ => .isFalse (by simp)
    | .error _, .ok _ => .isFalse (by simp)

/-- The file system of C1's failing input: one open handle (DOS handle 1)
whose file has size 11 and current position 5. -/
def c1_file_system : StandardDosFileSystem := ⟨[some ⟨5, 11⟩]⟩

/-- C1: the claim says `seek(h, off, Current)` moves the file position by
the signed 32-bit reinterpretation of `off` (so `off = 0xFFFFFFFF` moves
back one byte), and likewise for `End`.  The code zero-extends the `u32`
offset (`offset as i64`), so from position 5 the file lands at position
5 + 0xFFFFFFFF = 4294967300 — not at 4 — even though the returned value,
truncated `as u32`, is 4; the same happens from the end of file.  This
theorem evaluates the code at the failing input. -/
theorem c1_seek_zero_extends :
    fsSeek c1_file_system 1 0xffffffff .Current =
      (.ok 4, ⟨[some ⟨4294967300, 11⟩]⟩) ∧
    (4294967300 : Nat) ≠ 4 ∧
    fsSeek c1_file_system 1 0xffffffff .End =
      (.ok 10, ⟨[some ⟨4294967306, 11⟩]⟩) ∧
    (4294967306 : Nat) ≠ 10 ∧
    (toInt32 0xffffffff = -1 ∧ ((5 : Int) + toInt32 0xffffffff = 4)) := by
  decide

/-- C2 (counterexample): starting from a fresh cache over an empty host
directory, `get_real_name ⟨FOOT, TEX⟩` registers host name `FOOT.TEX`, and a
following `get_real_name ⟨FOOT.TEX, ⟩` (the parse of the guest name
`FOOT.TEX.`, whose title contains a dot and whose extension is empty)
synthesizes the same host name and overwrites its binding, breaking the
bijection: the dos-to-real map still sends `⟨FOOT, TEX⟩` to `FOOT.TEX`, but
the real-to-dos map now sends `FOOT.TEX` to `⟨FOOT.TEX, ⟩`. -/
theorem c2_bijection_broken :
    cacheBij (runCache []
      [.getReal ⟨strBytes "FOOT", strBytes "TEX"⟩,
       .getReal ⟨strBytes "FOOT.TEX", []⟩]
      (cacheNew [])) = false := by
  decide

theorem runCache_getDos_bij (dir : List (List Nat)) (names : List (List Nat))
    (c : DirListingCache) (hb : cacheBij c = true) :
    cacheBij (runCache dir (names.map CacheOp.getDos) c) = true := by
  induction names generalizing c with
  | nil => exact hb
  | cons name rest ih =>
    simpa [runCache, stepCache] using
      ih ((getDosName c name).2) (cacheBij_getDosName c hb name)

/-- C2 (amended): the bijection invariant does hold across any sequence of
`get_dos_name` calls (on any fresh cache, over any host directory);
`get_real_name` is what can break it, as `c2_bijection_broken` shows. -/
theorem c2_getDosName_bijection (dir : List (List Nat))
    (names : List (List Nat)) :
    cacheBij (runCache dir (names.map CacheOp.getDos) (cacheNew dir)) = true :=
  runCache_getDos_bij dir names (cacheNew dir)
    (cacheBij_listDir dir ⟨[], []⟩ (by decide))

/-- C2 (witness): the amended claim at a concrete directory and name list. -/
theorem c2_getDosName_bijection_witness :
    cacheBij (runCache [strBytes "a.txt"]
      ([strBytes "b.txt", strBytes "a.txt"].map CacheOp.getDos)
      (cacheNew [strBytes "a.txt"])) = true :=
  c2_getDosName_bijection [strBytes "a.txt"] [strBytes "b.txt", strBytes "a.txt"]

/-- C3 (counterexample): a file name with a non-empty title but an empty
extension does not match `*.*` — the `*` in the spec's extension field
consumes no byte of an empty extension, so the spec is not fully used up.
(`⟨FOOT.TEX, ⟩`-style names with empty extensions arise from guest names
with a trailing dot.) -/
theorem c3_star_dot_star_empty_ext :
    filename_matches_spec ⟨[65], []⟩ (strBytes "*.*") = false := by
  decide

/-- C3 (amended): `filename_matches_spec(f, "*.*")` is true for every `f`
whose title is non-empty and whose extension is also non-empty. -/
theorem c3_star_dot_star (f : DosFileName) (ht : f.title ≠ [])
    (he : f.ext ≠ []) : filename_matches_spec f (strBytes "*.*") = true := by
  have hs : strBytes "*.*" = [42, 46, 42] := by decide
  rw [hs]
  obtain ⟨t0, trest, htl⟩ := List.exists_cons_of_ne_nil ht
  obtain ⟨e0, erest, hel⟩ := List.exists_cons_of_ne_nil he
  have hsplit : split_filename [42, 46, 42] = ([42], some [42]) := by decide
  simp [filename_matches_spec, hsplit, htl, hel, match_star_nonempty]

/-- C3 (witness): the amended claim at a concrete file name. -/
theorem c3_star_dot_star_witness :
    filename_matches_spec ⟨[65], [66]⟩ (strBytes "*.*") = true :=
  c3_star_dot_star ⟨[65], [66]⟩ (by decide) (by decide)

/-- C4 (counterexample): `write` is an `unimplemented!()` stub, so after a
successful close, `write(h)` does not return `InvalidFileHandle` — it
panics (modelled as `none`), returning nothing at all. -/
theorem c4_write_panics :
    fsClose ⟨[some ⟨0, 0⟩]⟩ 1 = (.ok (), ⟨[none]⟩) ∧
    fsWrite ⟨[none]⟩ 1 [] = none ∧
    fsWrite ⟨[none]⟩ 1 [] ≠ some (.error .InvalidFileHandle, ⟨[none]⟩) := by
  decide

/-- C4 (amended): after `close(h)` succeeds, `read(h)` and `seek(h)` return
`InvalidFileHandle` (numeric code 0x06) and leave the handle table exactly
as it was; `close(h)` again does too; `write(h)` does not return at all
(the `unimplemented!()` stub panics, for any handle).  Handle 0 always
yields `InvalidFileHandle` for `close`, `read` and `seek` without mutating
the table. -/
theorem c4_closed_handle_invalid (fs fs' : StandardDosFileSystem) (h : Nat)
    (hc : fsClose fs h = (.ok (), fs')) (count offset : Nat)
    (origin : DosFileSeekOrigin) (data : List Nat) :
    fsRead fs' h count = (.error .InvalidFileHandle, fs') ∧
    fsSeek fs' h offset origin = (.error .InvalidFileHandle, fs') ∧
    fsClose fs' h = (.error .InvalidFileHandle, fs') ∧
    fsWrite fs' h data = none ∧
    DosErrorCode.code .InvalidFileHandle = 0x06 ∧
    fsRead fs 0 count = (.error .InvalidFileHandle, fs) ∧
    fsSeek fs 0 offset origin = (.error .InvalidFileHandle, fs) ∧
    fsClose fs 0 = (.error .InvalidFileHandle, fs) := by
  by_cases h0 : h = 0
  · rw [h0] at hc
    simp [fsClose] at hc
  · cases hslot : fs.file_handles[h - 1]?.getD none with
    | none => simp [fsClose, h0, hslot] at hc
    | some f =>
      have hlt : h - 1 < fs.file_handles.length := by
        by_contra hge
        rw [List.getElem?_eq_none (Nat.le_of_not_lt hge)] at hslot
        exact Option.noConfusion hslot
      simp [fsClose, h0, hslot] at hc
      have hfs' : fs' = ⟨fs.file_handles.set (h - 1) none⟩ := by
        cases fs'
        simp only [Prod.mk.injEq, StandardDosFileSystem.mk.injEq] at hc
        simp [hc]
      have hnone : fs'.file_handles[h - 1]?.getD none = none := by
        rw [hfs', ← List.getD_eq_getElem?_getD]
        exact getD_set_of_lt _ _ _ _ hlt
      refine ⟨?_, ?_, ?_, rfl, rfl, ?_, ?_, ?_⟩
      · simp [fsRead, h0, hnone]
      · simp [fsSeek, h0, hnone]
      · simp [fsClose, h0, hnone]
      · simp [fsRead]
      · simp [fsSeek]
      · simp [fsClose]

/-- C4 (witness): the amended claim at a concrete one-handle table. -/
theorem c4_closed_handle_invalid_witness :
    fsRead ⟨[none]⟩ 1 4 = (.error .InvalidFileHandle, ⟨[none]⟩) ∧
    fsSeek ⟨[none]⟩ 1 0 .Start = (.error .InvalidFileHandle, ⟨[none]⟩) ∧
    fsClose ⟨[none]⟩ 1 = (.error .InvalidFileHandle, ⟨[none]⟩) ∧
    fsWrite ⟨[none]⟩ 1 [] = none ∧
    DosErrorCode.code .InvalidFileHandle = 0x06 ∧
    fsRead ⟨[some ⟨0, 0⟩]⟩ 0 4 = (.error .InvalidFileHandle, ⟨[some ⟨0, 0⟩]⟩) ∧
    fsSeek ⟨[some ⟨0, 0⟩]⟩ 0 0 .Start = (.error .InvalidFileHandle, ⟨[some ⟨0, 0⟩]⟩) ∧
    fsClose ⟨[some ⟨0, 0⟩]⟩ 0 = (.error .InvalidFileHandle, ⟨[some ⟨0, 0⟩]⟩) :=
  c4_closed_handle_invalid ⟨[some ⟨0, 0⟩]⟩ ⟨[none]⟩ 1 (by decide) 4 0 .Start []

/-- C5: the literal collision and truncation scenarios.  Starting from a
fresh cache over an empty directory: `foot.text ↦ FOOT.TEX`, then
`foot.text2 ↦ FOOT~1.TEX`; `filewithlongname.txt ↦ FILEWITH.TXT`, then
`filewithlongername.txt ↦ FILEWI~1.TXT`, then
`filewithlongerername.txt ↦ FILEWI~2.TXT`. -/
theorem c5_name_scenarios :
    (getDosName (cacheNew []) (strBytes "foot.text")).1.real_dos_name =
      strBytes "FOOT.TEX" ∧
    (getDosName (getDosName (cacheNew []) (strBytes "foot.text")).2
        (strBytes "foot.text2")).1.real_dos_name = strBytes "FOOT~1.TEX" ∧
    (getDosName (cacheNew []) (strBytes "filewithlongname.txt")).1.real_dos_name =
      strBytes "FILEWITH.TXT" ∧
    (getDosName (getDosName (cacheNew [])
        (strBytes "filewithlongname.txt")).2
        (strBytes "filewithlongername.txt")).1.real_dos_name =
      strBytes "FILEWI~1.TXT" ∧
    (getDosName (getDosName (getDosName (cacheNew [])
        (strBytes "filewithlongname.txt")).2
        (strBytes "filewithlongername.txt")).2
        (strBytes "filewithlongerername.txt")).1.real_dos_name =
      strBytes "FILEWI~2.TXT" := by
  decide

/-! ## Supporting lemmas: memory peeks and pokes -/

theorem pokeU8_mem_self (m : Machine) (addr v : Nat) :
    (pokeU8 m addr v).mem addr = v % 256 := by
  simp [pokeU8]

theorem pokeU8_mem_ne (m : Machine) (addr v a : Nat) (h : a ≠ addr) :
    (pokeU8 m addr v).mem a = m.mem a := by
  simp [pokeU8, h]

theorem pokeU16_mem_ne (m : Machine) (addr v a : Nat)
    (h1 : a ≠ addr) (h2 : a ≠ addr + 1) :
    (pokeU16 m addr v).mem a = m.mem a := by
  simp [pokeU16, pokeU8, h1, h2]

theorem peekU16_pokeU16_self (m : Machine) (addr v : Nat) :
    peekU16 (pokeU16 m addr v) addr = v % 65536 := by
  simp only [peekU16, pokeU16]
  rw [pokeU8_mem_ne _ _ _ _ (by omega), pokeU8_mem_self, pokeU8_mem_self]
  omega

theorem peekU16_pokeU16_ne (m : Machine) (addr v b : Nat)
    (h : b + 1 < addr ∨ addr + 1 < b) :
    peekU16 (pokeU16 m addr v) b = peekU16 m b := by
  simp only [peekU16]
  rw [pokeU16_mem_ne _ _ _ _ (by omega) (by omega),
    pokeU16_mem_ne _ _ _ _ (by omega) (by omega)]

/-- An all-zero machine, used to instantiate theorems with hypotheses. -/
def zeroMachine : Machine :=
  { mem := fun _ => 0, ax := 0, bx := 0, cx := 0, dx := 0, ds := 0, es := 0,
    ss := 0, cs := 0, sp := 0, ip := 0, carry := false, zero := false,
    pendingInterrupt := none }

/-- C6: INT 21h AH=25h writes `DX:DS` into IVT slot `AL` and INT 21h AH=35h
with the same `AL` (unchanged in between) reads the slot back, so
`BX = DX` and `ES = DS`. -/
theorem c6_ivt_round_trip (m : Machine) (hdx : m.dx < 65536)
    (hds : m.ds < 65536) :
    (int21_35 (int21_25 m)).bx = m.dx ∧ (int21_35 (int21_25 m)).es = m.ds := by
  unfold int21_25 int21_35
  have hax : ∀ (mm : Machine) (a v : Nat), (pokeU16 mm a v).ax = mm.ax :=
    fun _ _ _ => rfl
  simp only [hax]
  constructor
  · show peekU16 _ (regLow m.ax * INTERRUPT_TABLE_ENTRY_BYTES) = m.dx
    rw [peekU16_pokeU16_ne _ _ _ _ (by unfold INTERRUPT_TABLE_ENTRY_BYTES; omega),
      peekU16_pokeU16_self]
    exact Nat.mod_eq_of_lt hdx
  · show peekU16 _ (regLow m.ax * INTERRUPT_TABLE_ENTRY_BYTES + 2) = m.ds
    rw [peekU16_pokeU16_self]
    exact Nat.mod_eq_of_lt hds

/-- The machine of C6's witness: AL = 8, DX = 0x1234, DS = 0x5678. -/
def c6_machine : Machine :=
  { zeroMachine with ax := 0x2508, dx := 0x1234, ds := 0x5678 }

/-- C6 (witness): the round trip at a concrete machine. -/
theorem c6_ivt_round_trip_witness :
    (int21_35 (int21_25 c6_machine)).bx = 0x1234 ∧
    (int21_35 (int21_25 c6_machine)).es = 0x5678 :=
  c6_ivt_round_trip c6_machine (by decide) (by decide)

/-! ## C7: the INT 08h timer tick -/

theorem timerDword_lt (m : Machine)
    (h0 : m.mem 0x46c < 256) (h1 : m.mem 0x46d < 256)
    (h2 : m.mem 0x46e < 256) (h3 : m.mem 0x46f < 256) :
    timerDword m < 2 ^ 32 := by
  unfold timerDword peekU16 BIOS_SYSTEM_TIMER_COUNTER_LOW
    BIOS_SYSTEM_TIMER_COUNTER_HIGH biosOff BIOS_START
  norm_num
  omega

theorem int08_spec (m : Machine) :
    timerDword (int08 m) = (timerDword m + 1) % 2 ^ 32 ∧
    (int08 m).pendingInterrupt = some 0x1c ∧
    ((int08 m).mem 0x46c < 256 ∧ (int08 m).mem 0x46d < 256 ∧
     (int08 m).mem 0x46e < 256 ∧ (int08 m).mem 0x46f < 256) := by
  unfold int08 timerDword
  simp [peekU16, pokeU16, pokeU8, BIOS_SYSTEM_TIMER_COUNTER_LOW,
    BIOS_SYSTEM_TIMER_COUNTER_HIGH, biosOff, BIOS_START]
  omega

theorem int08_iterate (n : Nat) :
    ∀ (m : Machine), m.mem 0x46c < 256 → m.mem 0x46d < 256 →
      m.mem 0x46e < 256 → m.mem 0x46f < 256 →
      timerDword (int08^[n] m) = (timerDword m + n) % 2 ^ 32 ∧
      ((int08^[n] m).mem 0x46c < 256 ∧ (int08^[n] m).mem 0x46d < 256 ∧
       (int08^[n] m).mem 0x46e < 256 ∧ (int08^[n] m).mem 0x46f < 256) := by
  induction n with
  | zero =>
    intro m h0 h1 h2 h3
    have := timerDword_lt m h0 h1 h2 h3
    exact ⟨by simpa using (Nat.mod_eq_of_lt this).symm, h0, h1, h2, h3⟩
  | succ n ih =>
    intro m h0 h1 h2 h3
    obtain ⟨hdw, hb0, hb1, hb2, hb3⟩ := ih m h0 h1 h2 h3
    obtain ⟨hstep, _, hs0, hs1, hs2, hs3⟩ := int08_spec (int08^[n] m)
    rw [Function.iterate_succ_apply']
    refine ⟨?_, hs0, hs1, hs2, hs3⟩
    rw [hstep, hdw]
    omega

/-- C7: each INT 08h invocation increments the BDA timer dword (low word at
0x46C, high word at 0x46E) by exactly one modulo 2^32, requests INT 1Ch for
the next instruction step, and 2^32 invocations restore the dword. -/
theorem c7_timer_tick (m : Machine)
    (h0 : m.mem 0x46c < 256) (h1 : m.mem 0x46d < 256)
    (h2 : m.mem 0x46e < 256) (h3 : m.mem 0x46f < 256) :
    timerDword (int08 m) = (timerDword m + 1) % 2 ^ 32 ∧
    (int08 m).pendingInterrupt = some 0x1c ∧
    timerDword (int08^[2 ^ 32] m) = timerDword m := by
  obtain ⟨hstep, hpend, _⟩ := int08_spec m
  obtain ⟨hiter, _⟩ := int08_iterate (2 ^ 32) m h0 h1 h2 h3
  have hlt := timerDword_lt m h0 h1 h2 h3
  refine ⟨hstep, hpend, ?_⟩
  rw [hiter]
  omega

/-- C7 (witness): the timer tick on the all-zero machine. -/
theorem c7_timer_tick_witness :
    timerDword (int08 zeroMachine) = 1 ∧
    (int08 zeroMachine).pendingInterrupt = some 0x1c ∧
    timerDword (int08^[2 ^ 32] zeroMachine) = 0 := by
  obtain ⟨ha, hb, hc⟩ :=
    c7_timer_tick zeroMachine (by decide) (by decide) (by decide) (by decide)
  refine ⟨?_, hb, ?_⟩
  · rw [ha]; decide
  · rw [hc]; decide

/-- C10: `initialise_bios_data_area` (run by the MZ loader) writes `0xD403`
— the byte-swapped form of the CRT index port `0x3D4` — into the
video-I/O-port-base word at BDA offset 0x63, whereas
`DosEventHandler::init_machine` writes `0x3D4` into the same cell; the two
initialization paths disagree. -/
theorem c10_video_port_disagreement (m : Machine) :
    peekU16 (initialise_bios_data_area m) BIOS_VIDEO_IO_PORT_ADDRESS = 0xd403 ∧
    peekU16 (init_machine EGA_MODE_3 m) BIOS_VIDEO_IO_PORT_ADDRESS = 0x3d4 ∧
    (0xd403 : Nat) ≠ 0x3d4 ∧
    (0xd403 : Nat) = 0x3d4 % 256 * 256 + 0x3d4 / 256 := by
  refine ⟨?_, ?_, by decide, by decide⟩
  · simp [initialise_bios_data_area, peekU16, pokeU16, pokeU8,
      BIOS_VIDEO_IO_PORT_ADDRESS, BIOS_EQUIPMENT, BIOS_MEMORY_SIZE_KB,
      BIOS_TEXT_COLUMN_COUNT, biosOff, BIOS_START]
  · simp [init_machine, EGA_MODE_3, peekU16, pokeU16, pokeU8,
      BIOS_VIDEO_IO_PORT_ADDRESS, BIOS_VIDEO_MODE_INDEX,
      BIOS_TEXT_COLUMN_COUNT, BIOS_TEXT_PAGE_BYTES, BIOS_TEXT_ROW_COUNT,
      BIOS_CHAR_HEIGHT, biosOff, BIOS_START]

/-- C10 (witness): the disagreement at the all-zero machine. -/
theorem c10_video_port_disagreement_witness :
    peekU16 (initialise_bios_data_area zeroMachine) BIOS_VIDEO_IO_PORT_ADDRESS =
      0xd403 ∧
    peekU16 (init_machine EGA_MODE_3 zeroMachine) BIOS_VIDEO_IO_PORT_ADDRESS =
      0x3d4 ∧
    (0xd403 : Nat) ≠ 0x3d4 ∧
    (0xd403 : Nat) = 0x3d4 % 256 * 256 + 0x3d4 / 256 :=
  c10_video_port_disagreement zeroMachine

/-! ## C9: the MZ loader -/

theorem pokeU8_mem_lt (m : Machine) (addr v a : Nat) (h : addr < a) :
    (pokeU8 m addr v).mem a = m.mem a :=
  pokeU8_mem_ne _ _ _ _ (by omega)

theorem pokeU16_mem_lt (m : Machine) (addr v a : Nat) (h : addr + 1 < a) :
    (pokeU16 m addr v).mem a = m.mem a :=
  pokeU16_mem_ne _ _ _ _ (by omega) (by omega)

theorem extract_data_length (h : MzHeader) (file : List Nat) :
    (h.extract_data file).length = h.data_end - h.data_start := by
  simp [MzHeader.extract_data]

theorem extract_data_getD (h : MzHeader) (file : List Nat) (i : Nat)
    (hi : i < h.data_end - h.data_start) :
    (h.extract_data file).getD i 0 = file.getD (h.data_start + i) 0 := by
  rw [MzHeader.extract_data, List.getD_eq_getElem?_getD, List.getElem?_map,
    List.getElem?_range hi]
  rfl

/-- C9 (counterexample): header with 2 header paragraphs, 1 file block of
which 33 bytes are used, so the image is the single byte at file offset 32
(value 0x42).  After loading into the all-zero machine that byte sits at
physical 0x1100; physical 0x11000 — where the claim says the image starts —
still holds 0. -/
def c9_header : MzHeader :=
  ⟨0, 33, 1, 0, 2, 0, 0, 0, 0, 0, 0, 0, 0, 0, 0⟩

/-- The 33-byte file of C9's counterexample: the image byte 0x42 at offset
32, after a 32-byte header. -/
def c9_file : List Nat := List.replicate 32 0 ++ [0x42]

/-- C9 (counterexample): the loader places the image at 0x1100
(paragraph 0x110 × 16), not at 0x11000 as the claim says. -/
theorem c9_load_address :
    c9_header.data_start = 32 ∧ c9_header.data_end = 33 ∧
    (c9_header.extract_data c9_file).getD 0 0 = 0x42 ∧
    (c9_header.load_into_machine zeroMachine c9_file).mem 0x1100 = 0x42 ∧
    (c9_header.load_into_machine zeroMachine c9_file).mem 0x11000 = 0 ∧
    (0x42 : Nat) ≠ 0 := by
  decide

/-- C9 (amended): after `load_into_machine`, SP = initial_sp,
IP = initial_ip, SS = initial_ss + 0x110, CS = initial_cs + 0x110,
DS = ES = 0x100 (the sums taken within `u16`; the hypotheses keep them in
range), and the image bytes — the file bytes from
`data_start = header_paragraph_count × 16` up to
`data_end = file_block_count × 512 − (512 − last_block_bytes)` when
`last_block_bytes > 0` (`file_block_count × 512` otherwise) — are placed
starting at physical address 0x1100 (not 0x11000). -/
theorem c9_load_into_machine (h : MzHeader) (m : Machine) (file : List Nat)
    (hss : h.initial_ss + 0x110 < 65536) (hcs : h.initial_cs + 0x110 < 65536) :
    (h.load_into_machine m file).sp = h.initial_sp ∧
    (h.load_into_machine m file).ip = h.initial_ip ∧
    (h.load_into_machine m file).ss = h.initial_ss + 0x110 ∧
    (h.load_into_machine m file).cs = h.initial_cs + 0x110 ∧
    (h.load_into_machine m file).ds = 0x100 ∧
    (h.load_into_machine m file).es = 0x100 ∧
    (h.extract_data file).length = h.data_end - h.data_start ∧
    ∀ i, i < h.data_end - h.data_start →
      (h.load_into_machine m file).mem (0x1100 + i) =
        file.getD (h.data_start + i) 0 := by
  have hregs : ∀ i, i < h.data_end - h.data_start →
      (h.load_into_machine m file).mem (0x1100 + i) =
        file.getD (h.data_start + i) 0 := by
    intro i hi
    have hlen := extract_data_length h file
    simp only [MzHeader.load_into_machine, initialise_bios_data_area,
      initialise_dos_psp, EXE_ORIGIN_PARAGRAPH, EXE_PSP_PARAGRAPHS,
      EXE_PARAGRAPH_BYTES, BIOS_EQUIPMENT, BIOS_MEMORY_SIZE_KB,
      BIOS_TEXT_COLUMN_COUNT, BIOS_VIDEO_IO_PORT_ADDRESS, biosOff, BIOS_START,
      List.length_nil, List.range_zero, List.foldl_nil, Nat.reduceAdd,
      Nat.reduceMul, gt_iff_lt]
    norm_num
    rw [pokeU8_mem_lt _ _ _ _ (by omega), pokeU8_mem_lt _ _ _ _ (by omega),
      pokeU16_mem_lt _ _ _ _ (by omega), pokeU16_mem_lt _ _ _ _ (by omega),
      pokeU16_mem_lt _ _ _ _ (by omega), pokeU16_mem_lt _ _ _ _ (by omega),
      pokeU16_mem_lt _ _ _ _ (by omega)]
    rw [insert_contiguous_bytes]
    simp only [hlen]
    rw [if_pos (by omega)]
    simpa using extract_data_getD h file i hi
  refine ⟨rfl, rfl, ?_, ?_, rfl, rfl, extract_data_length h file, hregs⟩
  · show (h.initial_ss + (0x100 + 0x10)) % 65536 = h.initial_ss + 0x110
    omega
  · show (h.initial_cs + (0x100 + 0x10)) % 65536 = h.initial_cs + 0x110
    omega

/-- C9 (witness): the amended claim at the counterexample's header and
file. -/
theorem c9_load_into_machine_witness :
    (c9_header.load_into_machine zeroMachine c9_file).ss = 0x110 ∧
    (c9_header.load_into_machine zeroMachine c9_file).ds = 0x100 ∧
    (c9_header.load_into_machine zeroMachine c9_file).mem 0x1100 = 0x42 := by
  obtain ⟨hsp, hip, hss, hcs, hds, hes, hlen, hmem⟩ :=
    c9_load_into_machine c9_header zeroMachine c9_file (by decide) (by decide)
  refine ⟨by rw [hss]; decide, hds, ?_⟩
  have h0 := hmem 0 (by decide)
  have hbyte : c9_file.getD (c9_header.data_start + 0) 0 = 0x42 := by decide
  rw [hbyte] at h0
  simpa using h0

/-! ## C8: INT 10h AH=06h with AL=0

The two fill loops are characterized cell by cell, with the BDA column
count pinned to 80 (the configuration of the claim): the filled character
bytes are 0, the attribute bytes are the blank attribute, everything else
is untouched, and the loop never disturbs the column-count word it reads. -/

theorem fillCells_spec (base y attr : Nat) :
    ∀ (cnt x : Nat) (m : Machine),
      m.mem 0x44a = 80 → m.mem 0x44b = 0 → 0x44c ≤ base →
      ((fillCells m base y x cnt attr).mem 0x44a = 80 ∧
       (fillCells m base y x cnt attr).mem 0x44b = 0) ∧
      (∀ i, i < cnt →
        (fillCells m base y x cnt attr).mem (base + (y * 80 + (x + i)) * 2) = 0 ∧
        (fillCells m base y x cnt attr).mem (base + (y * 80 + (x + i)) * 2 + 1) =
          attr % 256) ∧
      (∀ a, (∀ i, i < cnt → a ≠ base + (y * 80 + (x + i)) * 2 ∧
          a ≠ base + (y * 80 + (x + i)) * 2 + 1) →
        (fillCells m base y x cnt attr).mem a = m.mem a) := by
  intro cnt
  induction cnt with
  | zero =>
    intro x m h44a h44b hbase
    exact ⟨⟨h44a, h44b⟩, fun i hi => absurd hi (Nat.not_lt_zero i),
      fun a _ => rfl⟩
  | succ n ih =>
    intro x m h44a h44b hbase
    have hca : get_screen_character_address m base x y = base + (y * 80 + x) * 2 := by
      simp [get_screen_character_address, peekU16, BIOS_TEXT_COLUMN_COUNT,
        biosOff, BIOS_START, h44a, h44b]
    have hstep : fillCells m base y x (n + 1) attr =
        fillCells (pokeU8 (pokeU8 m (base + (y * 80 + x) * 2) 0)
          (base + (y * 80 + x) * 2 + 1) attr) base y (x + 1) n attr := by
      rw [fillCells, hca]
    set m2 : Machine := pokeU8 (pokeU8 m (base + (y * 80 + x) * 2) 0)
      (base + (y * 80 + x) * 2 + 1) attr with hm2
    have h2a : m2.mem 0x44a = 80 := by
      rw [hm2, pokeU8_mem_ne _ _ _ _ (by omega), pokeU8_mem_ne _ _ _ _ (by omega)]
      exact h44a
    have h2b : m2.mem 0x44b = 0 := by
      rw [hm2, pokeU8_mem_ne _ _ _ _ (by omega), pokeU8_mem_ne _ _ _ _ (by omega)]
      exact h44b
    have h2char : m2.mem (base + (y * 80 + x) * 2) = 0 := by
      rw [hm2, pokeU8_mem_ne _ _ _ _ (by omega), pokeU8_mem_self]
    have h2attr : m2.mem (base + (y * 80 + x) * 2 + 1) = attr % 256 := by
      rw [hm2, pokeU8_mem_self]
    have h2other : ∀ a, a ≠ base + (y * 80 + x) * 2 →
        a ≠ base + (y * 80 + x) * 2 + 1 → m2.mem a = m.mem a := by
      intro a ha1 ha2
      rw [hm2, pokeU8_mem_ne _ _ _ _ ha2, pokeU8_mem_ne _ _ _ _ ha1]
    obtain ⟨⟨i44a, i44b⟩, icells, iother⟩ := ih (x + 1) m2 h2a h2b hbase
    rw [hstep]
    refine ⟨⟨i44a, i44b⟩, ?_, ?_⟩
    · intro i hi
      cases i with
      | zero =>
        have hunch := iother (base + (y * 80 + (x + 0)) * 2)
          (fun j hj => ⟨by omega, by omega⟩)
        have hunch1 := iother (base + (y * 80 + (x + 0)) * 2 + 1)
          (fun j hj => ⟨by omega, by omega⟩)
        constructor
        · rw [hunch]
          simpa using h2char
        · rw [hunch1]
          simpa using h2attr
      | succ j =>
        have hj : j < n := by omega
        have heq : x + 1 + j = x + (j + 1) := by omega
        have := icells j hj
        rw [heq] at this
        exact this
    · intro a ha
      have hrest : (fillCells m2 base y (x + 1) n attr).mem a = m2.mem a := by
        apply iother
        intro j hj
        have := ha (j + 1) (by omega)
        constructor
        · have heq : x + 1 + j = x + (j + 1) := by omega
          rw [heq]
          exact this.1
        · have heq : x + 1 + j = x + (j + 1) := by omega
          rw [heq]
          exact this.2
      rw [hrest]
      exact h2other a (by simpa using (ha 0 (by omega)).1)
        (by simpa using (ha 0 (by omega)).2)

theorem fillRows_spec (base left cnt_x attr : Nat)
    (hx : ∀ i, i < cnt_x → left + i < 80) :
    ∀ (cnt_y y : Nat) (m : Machine),
      m.mem 0x44a = 80 → m.mem 0x44b = 0 → 0x44c ≤ base →
      ((fillRows m base y cnt_y left cnt_x attr).mem 0x44a = 80 ∧
       (fillRows m base y cnt_y left cnt_x attr).mem 0x44b = 0) ∧
      (∀ j i, j < cnt_y → i < cnt_x →
        (fillRows m base y cnt_y left cnt_x attr).mem
          (base + ((y + j) * 80 + (left + i)) * 2) = 0 ∧
        (fillRows m base y cnt_y left cnt_x attr).mem
          (base + ((y + j) * 80 + (left + i)) * 2 + 1) = attr % 256) ∧
      (∀ a, (∀ j i, j < cnt_y → i < cnt_x →
          a ≠ base + ((y + j) * 80 + (left + i)) * 2 ∧
          a ≠ base + ((y + j) * 80 + (left + i)) * 2 + 1) →
        (fillRows m base y cnt_y left cnt_x attr).mem a = m.mem a) := by
  intro cnt_y
  induction cnt_y with
  | zero =>
    intro y m h44a h44b hbase
    exact ⟨⟨h44a, h44b⟩, fun j i hj _ => absurd hj (Nat.not_lt_zero j),
      fun a _ => rfl⟩
  | succ n ih =>
    intro y m h44a h44b hbase
    obtain ⟨⟨c44a, c44b⟩, ccells, cother⟩ :=
      fillCells_spec base y attr cnt_x left m h44a h44b hbase
    set m2 : Machine := fillCells m base y left cnt_x attr with hm2
    obtain ⟨⟨r44a, r44b⟩, rcells, rother⟩ := ih (y + 1) m2 c44a c44b hbase
    have hstep : fillRows m base y (n + 1) left cnt_x attr =
        fillRows m2 base (y + 1) n left cnt_x attr := by
      rw [fillRows, hm2]
    rw [hstep]
    refine ⟨⟨r44a, r44b⟩, ?_, ?_⟩
    · intro j i hj hi
      cases j with
      | zero =>
        have hi80 : left + i < 80 := hx i hi
        have hunch := rother (base + ((y + 0) * 80 + (left + i)) * 2)
          (fun j' i' hj' hi' => ⟨by omega, by omega⟩)
        have hunch1 := rother (base + ((y + 0) * 80 + (left + i)) * 2 + 1)
          (fun j' i' hj' hi' => ?_)
        · constructor
          · rw [hunch]
            have := (ccells i hi).1
            simpa using this
          · rw [hunch1]
            have := (ccells i hi).2
            simpa using this
        · have hi80' : left + i' < 80 := hx i' hi'
          exact ⟨by omega, by omega⟩
      | succ j' =>
        have hj' : j' < n := by omega
        have heq : y + 1 + j' = y + (j' + 1) := by omega
        have := rcells j' i hj' hi
        rw [heq] at this
        exact this
    · intro a ha
      have hrest : (fillRows m2 base (y + 1) n left cnt_x attr).mem a =
          m2.mem a := by
        apply rother
        intro j' i' hj' hi'
        have := ha (j' + 1) i' (by omega) hi'
        have heq : y + 1 + j' = y + (j' + 1) := by omega
        rw [heq]
        exact this
      rw [hrest]
      apply cother
      intro i hi
      have := ha 0 i (by omega) hi
      simpa using this

/-- C8: INT 10h AH=06h with AL=0 on active page 0 and BDA columns = 80
writes character 0 and attribute BH into every cell of the inclusive
rectangle rows CH..DH, columns CL..DL and leaves all other memory
unchanged; with CH=CL=0, DH=24, DL=79, BH=0x17 every even byte of
`[0xB8000, 0xB8000 + 2000*2)` becomes 0 and every odd byte 0x17. -/
theorem c8_int10_06_clear (m : Machine)
    (hal : regLow m.ax = 0) (hpage : m.mem 0x462 = 0)
    (h44a : m.mem 0x44a = 80) (h44b : m.mem 0x44b = 0)
    (hr : regLow m.dx ≤ 79) :
    ∃ m', int10_06 EGA_MODE_3 m = some m' ∧
      (∀ y x, regHigh m.cx ≤ y → y ≤ regHigh m.dx → regLow m.cx ≤ x →
        x ≤ regLow m.dx →
        m'.mem (0xb8000 + (y * 80 + x) * 2) = 0 ∧
        m'.mem (0xb8000 + (y * 80 + x) * 2 + 1) = regHigh m.bx) ∧
      (∀ a, (∀ y x, regHigh m.cx ≤ y → y ≤ regHigh m.dx → regLow m.cx ≤ x →
          x ≤ regLow m.dx →
          a ≠ 0xb8000 + (y * 80 + x) * 2 ∧
          a ≠ 0xb8000 + (y * 80 + x) * 2 + 1) →
        m'.mem a = m.mem a) ∧
      (m.cx = 0 → m.dx = 0x184f → regHigh m.bx = 0x17 →
        ∀ a, 0xb8000 ≤ a → a < 0xb8000 + 4000 →
          m'.mem a = if a % 2 = 0 then 0 else 0x17) := by
  have hattr : regHigh m.bx % 256 = regHigh m.bx :=
    Nat.mod_eq_of_lt (Nat.mod_lt _ (by norm_num))
  obtain ⟨⟨f44a, f44b⟩, fcells, fother⟩ :=
    fillRows_spec 0xb8000 (regLow m.cx) (regLow m.dx + 1 - regLow m.cx)
      (regHigh m.bx) (fun i hi => by omega)
      (regHigh m.dx + 1 - regHigh m.cx) (regHigh m.cx) m h44a h44b (by norm_num)
  refine ⟨fillRows m 0xb8000 (regHigh m.cx) (regHigh m.dx + 1 - regHigh m.cx)
    (regLow m.cx) (regLow m.dx + 1 - regLow m.cx) (regHigh m.bx), ?_, ?_, ?_, ?_⟩
  · simp [int10_06, get_page_origin_address, peekU8, hal, hpage, EGA_MODE_3,
      BIOS_ACTIVE_VIDEO_PAGE, biosOff, BIOS_START]
  · intro y x h1 h2 h3 h4
    have hy : regHigh m.cx + (y - regHigh m.cx) = y := by omega
    have hx' : regLow m.cx + (x - regLow m.cx) = x := by omega
    have := fcells (y - regHigh m.cx) (x - regLow m.cx) (by omega) (by omega)
    rw [hy, hx', hattr] at this
    exact this
  · intro a ha
    apply fother
    intro j i hj hi
    exact ha (regHigh m.cx + j) (regLow m.cx + i) (by omega) (by omega)
      (by omega) (by omega)
  · intro hcx hdx hbh a h5 h6
    have htop : regHigh m.cx = 0 := by rw [hcx]; rfl
    have hleft : regLow m.cx = 0 := by rw [hcx]; rfl
    have hbot : regHigh m.dx = 24 := by rw [hdx]; rfl
    have hright : regLow m.dx = 79 := by rw [hdx]; rfl
    simp only [htop, hleft, hbot, hright, hattr, Nat.zero_add,
      Nat.add_zero] at fcells ⊢
    have hxlt : (a - 0xb8000) / 2 % 80 < 80 := Nat.mod_lt _ (by norm_num)
    have hdm := Nat.div_add_mod ((a - 0xb8000) / 2) 80
    have hcell := fcells ((a - 0xb8000) / 2 / 80) ((a - 0xb8000) / 2 % 80)
      (by omega) (by omega)
    by_cases hpar : a % 2 = 0
    · rw [if_pos hpar]
      have haddr : a = 0xb8000 +
          ((a - 0xb8000) / 2 / 80 * 80 + (a - 0xb8000) / 2 % 80) * 2 := by
        omega
      rw [haddr]
      exact hcell.1
    · rw [if_neg hpar]
      have haddr : a = 0xb8000 +
          ((a - 0xb8000) / 2 / 80 * 80 + (a - 0xb8000) / 2 % 80) * 2 + 1 := by
        omega
      rw [haddr, hcell.2, hbh]

/-- The machine of C8's witness: AH=06h AL=0, BH=0x17, CH=CL=0, DH=24,
DL=79, active page 0, BDA columns = 80, all other memory zero. -/
def c8_machine : Machine :=
  { zeroMachine with
    ax := 0x0600, bx := 0x1700, cx := 0, dx := 0x184f
    mem := fun a => if a = 0x44a then 80 else 0 }

/-- C8 (witness): the full clear at the concrete machine. -/
theorem c8_int10_06_clear_witness :
    ∃ m', int10_06 EGA_MODE_3 c8_machine = some m' ∧
      (∀ y x, (0 : Nat) ≤ y → y ≤ 24 → (0 : Nat) ≤ x → x ≤ 79 →
        m'.mem (0xb8000 + (y * 80 + x) * 2) = 0 ∧
        m'.mem (0xb8000 + (y * 80 + x) * 2 + 1) = 0x17) ∧
      (∀ a, (∀ y x, (0 : Nat) ≤ y → y ≤ 24 → (0 : Nat) ≤ x → x ≤ 79 →
          a ≠ 0xb8000 + (y * 80 + x) * 2 ∧
          a ≠ 0xb8000 + (y * 80 + x) * 2 + 1) →
        m'.mem a = c8_machine.mem a) ∧
      (c8_machine.cx = 0 → c8_machine.dx = 0x184f → (0x17 : Nat) = 0x17 →
        ∀ a, 0xb8000 ≤ a → a < 0xb8000 + 4000 →
          m'.mem a = if a % 2 = 0 then 0 else 0x17) :=
  c8_int10_06_clear c8_machine (by decide) (by decide) (by decide) (by decide)
    (by decide)
